import Mathlib

/-!
Verification of the aml-node-backend repository: shallow Lean embeddings of
the SQL query-safety validator (src/unnamed/part_002), the admission
controller / rate limiter (src/src/middleware/rateLimiter.js), and the
connection-pool manager and transaction runner (src/unnamed/part_001,
database config module), together with theorems settling the frozen claims.

Strings are modelled as `List Char` (via `String.data`); times and counters
are `Nat`.  The JavaScript regular expressions of the validator are embedded
as hand-rolled scanners over `List Char` that follow the regex semantics
pattern by pattern.
-/

namespace AmlBackend

/-! ## Character and scanning helpers (regex embedding) -/

/-- JS `\s` for the ASCII characters that can occur in the queries at issue:
space, tab, newline, carriage return, vertical tab, form feed. -/
def isWS (c : Char) : Bool :=
  c == ' ' || c == '\t' || c == '\n' || c == '\r' || c == '\x0b' || c == '\x0c'

/-- ASCII lower-casing, as JS `toLowerCase` acts on ASCII letters. -/
def lcChar (c : Char) : Char :=
  if 'A' ≤ c ∧ c ≤ 'Z' then Char.ofNat (c.toNat + 32) else c

/-- Drop leading whitespace (the greedy `\s*`). -/
def dropWS (l : List Char) : List Char := l.dropWhile isWS

/-- If `l` starts with `kw` case-insensitively, return the remainder. -/
def stripCI : List Char → List Char → Option (List Char)
  | [], l => some l
  | _ :: _, [] => none
  | k :: ks, c :: cs => if lcChar c = lcChar k then stripCI ks cs else none

/-- Case-insensitive substring test (a bare `/KW/i` regex). -/
def containsCI (kw : List Char) : List Char → Bool
  | [] => (stripCI kw []).isSome
  | c :: rest => (stripCI kw (c :: rest)).isSome || containsCI kw rest

/-- Case-sensitive prefix test. -/
def startsWithList : List Char → List Char → Bool
  | [], _ => true
  | _ :: _, [] => false
  | k :: ks, c :: cs => k == c && startsWithList ks cs

/-- Case-sensitive substring test. -/
def containsSub (kw : List Char) : List Char → Bool
  | [] => startsWithList kw []
  | c :: rest => startsWithList kw (c :: rest) || containsSub kw rest

/-! ## The DANGEROUS_PATTERNS regexes (part_002 lines 7-26) -/

/-- Regex `;\s*KW\s+` (case-insensitive), for KW one of
DROP, TRUNCATE, ALTER, CREATE, GRANT, REVOKE, COPY. -/
def matchSemiKw (kw : List Char) : List Char → Bool
  | [] => false
  | c :: rest =>
    (c == ';' &&
      (match stripCI kw (dropWS rest) with
       | some (d :: _) => isWS d
       | _ => false)) || matchSemiKw kw rest

/-- Does the first line of `l` (up to the first newline, as `.` in a JS regex
does not cross newlines) contain `where` case-insensitively? Negated, this is
the lookahead `(?!.*WHERE)`. -/
def noWhereFirstLine (l : List Char) : Bool :=
  !(containsCI (String.data "where") (l.takeWhile (fun c => c != '\n')))

/-- After at least one whitespace character has been consumed by `\s+`, the
regex engine may stop at any point of the whitespace run; the lookahead
`(?!.*WHERE)` succeeds if ANY such stopping point has no `WHERE` on the rest
of its line. -/
def wsSplitsOk : List Char → Bool
  | [] => noWhereFirstLine []
  | c :: rest => noWhereFirstLine (c :: rest) || (isWS c && wsSplitsOk rest)

/-- Regex `;\s*DELETE\s+FROM\s+(?!.*WHERE)` (case-insensitive), the source's
"DELETE without WHERE" pattern (part_002 line 9).  Note the mandatory leading
semicolon. -/
def matchSemiDelete : List Char → Bool
  | [] => false
  | c :: rest =>
    (c == ';' &&
      (match stripCI (String.data "delete") (dropWS rest) with
       | some (d :: r1) =>
         isWS d &&
           (match stripCI (String.data "from") (dropWS r1) with
            | some (e :: r2) => isWS e && wsSplitsOk r2
            | _ => false)
       | _ => false)) || matchSemiDelete rest

/-- End-of-line detection for `--\s*$` in multiline mode: from the current
position, some run of whitespace (possibly empty) reaches the end of the
string or a newline. -/
def wsThenEOL : List Char → Bool
  | [] => true
  | c :: rest => c == '\n' || (isWS c && wsThenEOL rest)

/-- Regex `--\s*$` with the `m` flag (part_002 line 18). -/
def matchLineComment : List Char → Bool
  | [] => false
  | c :: rest =>
    (c == '-' &&
      (match rest with
       | d :: rest2 => d == '-' && wsThenEOL rest2
       | [] => false)) || matchLineComment rest

/-- Regex `/\*[\s\S]*?\*\//` (part_002 line 19): an opening `/*` with a
closing `*/` somewhere after it.  The source regex carries a `g` flag whose
`lastIndex` statefulness is not modelled; this is the single-call semantics. -/
def matchBlockComment : List Char → Bool
  | [] => false
  | c :: rest =>
    (c == '/' &&
      (match rest with
       | d :: rest2 => d == '*' && containsSub (String.data "*/") rest2
       | [] => false)) || matchBlockComment rest

/-- Regex `;\s*\\copy` (case-insensitive, part_002 line 21). -/
def matchSemiBSCopy : List Char → Bool
  | [] => false
  | c :: rest =>
    (c == ';' &&
      (match dropWS rest with
       | d :: r1 => d == '\\' && (stripCI (String.data "copy") r1).isSome
       | [] => false)) || matchSemiBSCopy rest

/-- The DANGEROUS_PATTERNS array, tested in source order; `validateQuery`
returns the same code for each, so the disjunction is faithful. -/
def dangerousPattern (l : List Char) : Bool :=
  matchSemiKw (String.data "drop") l ||
  matchSemiDelete l ||
  matchSemiKw (String.data "truncate") l ||
  matchSemiKw (String.data "alter") l ||
  matchSemiKw (String.data "create") l ||
  matchSemiKw (String.data "grant") l ||
  matchSemiKw (String.data "revoke") l ||
  containsCI (String.data "information_schema") l ||
  containsCI (String.data "pg_catalog") l ||
  containsCI (String.data "pg_tables") l ||
  matchLineComment l ||
  matchBlockComment l ||
  matchSemiKw (String.data "copy") l ||
  matchSemiBSCopy l ||
  containsCI (String.data "pg_read_file") l ||
  containsCI (String.data "pg_write_file") l ||
  containsCI (String.data "lo_import") l ||
  containsCI (String.data "lo_export") l

/-- Keywords of MULTI_STATEMENT_PATTERN (part_002 line 29). -/
def multiKeywords : List (List Char) :=
  [String.data "select", String.data "insert", String.data "update",
   String.data "delete", String.data "drop", String.data "create",
   String.data "alter", String.data "truncate"]

/-- Regex `;\s*(?:SELECT|INSERT|UPDATE|DELETE|DROP|CREATE|ALTER|TRUNCATE)`
(case-insensitive). -/
def multiStatementPattern : List Char → Bool
  | [] => false
  | c :: rest =>
    (c == ';' &&
      multiKeywords.any (fun kw => (stripCI kw (dropWS rest)).isSome)) ||
    multiStatementPattern rest

/-! ## Query policy validator (part_002 lines 32-157) -/

/-- Default of MAX_QUERY_LENGTH (env unset). -/
def MAX_QUERY_LENGTH : Nat := 50000

/-- Default of MAX_PARAMS (env unset). -/
def MAX_PARAMS : Nat := 1000

/-- Default BLOCKED_TABLES (env unset), already lower-case. -/
def blockedTables : List (List Char) :=
  [String.data "pg_", String.data "information_schema",
   String.data "_prisma_migrations"]

/-- Scalar query parameters as the validator distinguishes them: only string
values are inspected (typeof check), everything else passes. -/
inductive SqlParam where
  | str (s : String)
  | num (n : Int)
  | other
deriving DecidableEq

/-- The per-parameter length check of part_002 lines 106-114. -/
def paramTooLong : SqlParam → Bool
  | .str s => decide (10000 < s.length)
  | _ => false

/-- Validation verdict: the `valid` flag and the machine-readable error code
(the human-readable message is not modelled). -/
structure Verdict where
  valid : Bool
  code : Option String
deriving DecidableEq

/-- The blocked-table scan of validateTableAccess (part_002 lines 128-136):
a plain substring test of each blocked entry against the lower-cased SQL.
`containsCI` equals lower-casing then `includes` because the blocked entries
are themselves lower-case. -/
def hasBlockedTable (l : List Char) : Bool :=
  blockedTables.any (fun b => containsCI b l)

/-- validateTableAccess (part_002 lines 124-157) with the default
configuration: ALLOWED_TABLES is unset, so only the blocked-table scan acts. -/
def validateTableAccess (l : List Char) : Verdict :=
  if hasBlockedTable l = true then ⟨false, some "BLOCKED_TABLE"⟩
  else ⟨true, none⟩

/-- validateQuery (part_002 lines 53-117).  `strict` models
`NODE_ENV === 'production' || STRICT_SQL_VALIDATION === 'true'`; the JS
`!sql || typeof sql !== 'string'` guard reduces to the empty-string test
because `sql` is typed.  The table-access step is inlined (with the default
configuration it is exactly the blocked-table scan). -/
def validateQuery (sql : String) (params : List SqlParam) (strict : Bool) :
    Verdict :=
  let l := sql.data
  if l = [] then ⟨false, some "MISSING_SQL"⟩
  else if MAX_QUERY_LENGTH < l.length then ⟨false, some "QUERY_TOO_LONG"⟩
  else if MAX_PARAMS < params.length then ⟨false, some "TOO_MANY_PARAMS"⟩
  else if strict = true ∧ dangerousPattern l = true then
    ⟨false, some "DANGEROUS_QUERY"⟩
  else if strict = true ∧ multiStatementPattern l = true then
    ⟨false, some "MULTI_STATEMENT"⟩
  else if hasBlockedTable l = true then ⟨false, some "BLOCKED_TABLE"⟩
  else if params.any paramTooLong = true then ⟨false, some "PARAM_TOO_LONG"⟩
  else ⟨true, none⟩

/-! ## Identifier sanitizer (part_002 lines 164-222) -/

/-- First character of `^[a-zA-Z_][a-zA-Z0-9_]*$`. -/
def isIdentStart (c : Char) : Bool :=
  ('a' ≤ c && c ≤ 'z') || ('A' ≤ c && c ≤ 'Z') || c == '_'

/-- Later characters of the identifier pattern. -/
def isIdentChar (c : Char) : Bool :=
  isIdentStart c || ('0' ≤ c && c ≤ '9')

/-- The column regex `^[a-zA-Z_][a-zA-Z0-9_]*$`. -/
def identOk : List Char → Bool
  | [] => false
  | c :: rest => isIdentStart c && rest.all isIdentChar

/-- Rest of the table regex after its first character:
`[a-zA-Z0-9_]*(\.[a-zA-Z_][a-zA-Z0-9_]*)?$` — identifier characters up to an
optional single dot, after which a full identifier must follow. -/
def identTail : List Char → Bool
  | [] => true
  | c :: rest => if c = '.' then identOk rest else isIdentChar c && identTail rest

/-- The table regex `^[a-zA-Z_][a-zA-Z0-9_]*(\.[a-zA-Z_][a-zA-Z0-9_]*)?$`
(part_002 line 170). -/
def tablePatternOk : List Char → Bool
  | [] => false
  | c :: rest => isIdentStart c && identTail rest

/-- Result of sanitizeTableName: validity flag and, when valid, the sanitized
name. -/
structure SanTable where
  valid : Bool
  sanitized : Option String
deriving DecidableEq

/-- sanitizeTableName (part_002 lines 164-193) with the default configuration
(ALLOWED_TABLES unset).  Blocked check: the lower-cased name `startsWith` a
blocked entry or `includes` a dot followed by one. -/
def sanitizeTableName (table : String) : SanTable :=
  let l := table.data
  if l = [] then ⟨false, none⟩
  else if tablePatternOk l = false then ⟨false, none⟩
  else
    let lower := l.map lcChar
    if blockedTables.any
        (fun b => startsWithList b lower || containsSub ('.' :: b) lower) then
      ⟨false, none⟩
    else ⟨true, some table⟩

/-- Result of sanitizeColumnNames. -/
structure SanCols where
  valid : Bool
  sanitized : Option (List String)
deriving DecidableEq

/-- Wrap a column name in double quotes, as the backtick-template
`"${col}"` of part_002 line 218 does. -/
def quoteCol (c : String) : String := "\"" ++ c ++ "\""

/-- The per-column loop of sanitizeColumnNames: `*` passes bare, names
matching the column pattern are pushed quoted, anything else aborts. -/
def sanColsLoop : List String → Option (List String)
  | [] => some []
  | c :: rest =>
    if c = "*" then (sanColsLoop rest).map (fun out => "*" :: out)
    else if identOk c.data = true then
      (sanColsLoop rest).map (fun out => quoteCol c :: out)
    else none

/-- sanitizeColumnNames (part_002 lines 200-222). -/
def sanitizeColumnNames (cols : List String) : SanCols :=
  match sanColsLoop cols with
  | some out => ⟨true, some out⟩
  | none => ⟨false, none⟩

/-- Modelled from the spec words "quoted/escaped for literal embedding as
identifiers": a string is quote-wrapped when it begins and ends with a double
quote.  Used only to compare the sanitizer's actual output against the
spec's description. -/
def isQuotedIdent (s : String) : Bool :=
  match s.data with
  | [] => false
  | c :: rest => c == '"' && rest.getLast? == some '"'

/-! ## Admission controller / rate limiter (src/src/middleware/rateLimiter.js) -/

/-- The three env-configurable limits of rateLimiter.js lines 9-11
(defaults 60000 / 100 / 20 when the env is unset). -/
structure RLConfig where
  windowMs : Nat
  maxRequests : Nat
  burstMax : Nat
deriving DecidableEq

/-- Default configuration (env unset). -/
def defaultRLConfig : RLConfig := ⟨60000, 100, 20⟩

/-- One RateWindowRecord of the in-memory fallback store
(rateLimiter.js lines 90-95). -/
structure MemRecord where
  windowStart : Nat
  count : Nat
  burstWindowStart : Nat
  burstCount : Nat
deriving DecidableEq

/-- The result object returned by both rate-limit checkers. -/
structure RLResult where
  allowed : Bool
  count : Nat
  burstCount : Nat
  remaining : Nat
  resetAt : Nat
  isBurst : Bool
deriving DecidableEq

/-- The fresh record created at rateLimiter.js lines 90-95. -/
def freshRecord (now : Nat) : MemRecord := ⟨now, 0, now, 0⟩

/-- checkRateLimitMemory (rateLimiter.js lines 84-116).  The store lookup is
made explicit: `store` is the record currently held for the client (or none),
and the updated record is returned alongside the result.  `now - x > k` uses
truncated Nat subtraction, which agrees with the JS comparison for times
running forward and is false (as in JS) when `now < x`. -/
def checkRateLimitMemory (cfg : RLConfig) (store : Option MemRecord)
    (now : Nat) : MemRecord × RLResult :=
  let r0 := match store with
    | none => freshRecord now
    | some r => if cfg.windowMs < now - r.windowStart then freshRecord now else r
  let r1 := if 1000 < now - r0.burstWindowStart then
      { r0 with burstWindowStart := now, burstCount := 0 }
    else r0
  let r2 := { r1 with count := r1.count + 1, burstCount := r1.burstCount + 1 }
  (r2,
   { allowed := decide (r2.count ≤ cfg.maxRequests) &&
       decide (r2.burstCount ≤ cfg.burstMax)
     count := r2.count
     burstCount := r2.burstCount
     remaining := cfg.maxRequests - r2.count
     resetAt := r2.windowStart + cfg.windowMs
     isBurst := decide (cfg.burstMax < r2.burstCount) })

/-- The contents of the two Redis sorted sets keyed by the client
(timestamp scores; the random member suffixes of the `zadd` calls only make
members unique and are not modelled). -/
structure RedisState where
  sustained : List Nat
  burst : List Nat
deriving DecidableEq

/-- One sliding-set round of the pipeline (rateLimiter.js lines 36-52):
`zremrangebyscore key 0 (now - win)` drops entries with score ≤ now - win,
`zcard` counts the survivors, `zadd` appends the current timestamp.  The
guard `now < s + win` equals `s > now - win` over the integers for every
`now`, including `now < win` where the JS bound is negative.  The `pexpire`
TTL refresh is not modelled: dropping a key that went unused for a full
window is indistinguishable, for every later verdict, from the score-based
pruning that would remove all its entries anyway. -/
def zslideStep (win : Nat) (l : List Nat) (now : Nat) : List Nat × Nat :=
  let kept := l.filter (fun s => decide (now < s + win))
  (kept ++ [now], kept.length)

/-- checkRateLimitRedis (rateLimiter.js lines 23-67), the in-pipeline part:
sustained set against `windowMs`, burst set against the fixed 1000 ms window,
verdict from the pre-add cardinalities. -/
def checkRateLimitRedis (cfg : RLConfig) (st : RedisState) (now : Nat) :
    RedisState × RLResult :=
  let s := zslideStep cfg.windowMs st.sustained now
  let b := zslideStep 1000 st.burst now
  (⟨s.1, b.1⟩,
   { allowed := decide (s.2 < cfg.maxRequests) && decide (b.2 < cfg.burstMax)
     count := s.2 + 1
     burstCount := b.2 + 1
     remaining := cfg.maxRequests - s.2 - 1
     resetAt := now + cfg.windowMs
     isBurst := decide (cfg.burstMax ≤ b.2) })

/-- Run the in-memory checker over a sequence of request times for one
client, threading its record. -/
def runMemory (cfg : RLConfig) :
    Option MemRecord → List Nat → Option MemRecord × List RLResult
  | st, [] => (st, [])
  | st, t :: ts =>
    let p := checkRateLimitMemory cfg st t
    let q := runMemory cfg (some p.1) ts
    (q.1, p.2 :: q.2)

/-- Run the Redis checker over a sequence of request times for one client,
threading its pair of sorted sets. -/
def runRedis (cfg : RLConfig) : RedisState → List Nat → RedisState × List RLResult
  | st, [] => (st, [])
  | st, t :: ts =>
    let p := checkRateLimitRedis cfg st t
    let q := runRedis cfg p.1 ts
    (q.1, p.2 :: q.2)

/-- The catch-all fallback of checkRateLimitRedis (rateLimiter.js lines
68-78): the store round-trip either yields the Redis state (`Except.ok`) or
throws (`Except.error`), in which case the check is answered by the
in-memory algorithm for that call. -/
def checkRateLimitWithFallback (cfg : RLConfig)
    (redisSt : Except Unit RedisState) (mem : Option MemRecord) (now : Nat) :
    (Except Unit RedisState × Option MemRecord) × RLResult :=
  match redisSt with
  | .ok st =>
    let p := checkRateLimitRedis cfg st now
    ((.ok p.1, mem), p.2)
  | .error e =>
    let p := checkRateLimitMemory cfg mem now
    ((.error e, some p.1), p.2)

/-! ## IP blocking and the /api middleware chain (part_003 lines 128-132,
rateLimiter.js lines 182-221) -/

/-- Association-list lookup, modelling `memoryStore.get`. -/
def lookupS {α : Type} : List (String × α) → String → Option α
  | [], _ => none
  | (k, v) :: rest, key => if k = key then some v else lookupS rest key

/-- Key removal, modelling `memoryStore.delete`. -/
def removeS {α : Type} : List (String × α) → String → List (String × α)
  | [], _ => []
  | (k, v) :: rest, key =>
    if k = key then removeS rest key else (k, v) :: removeS rest key

/-- Key update, modelling `memoryStore.set`. -/
def insertS {α : Type} (l : List (String × α)) (key : String) (v : α) :
    List (String × α) := (key, v) :: removeS l key

/-- The in-memory store as the middleware chain sees it: the `blocked:ip`
entries (blockedUntil timestamps) and the per-identity rate records, which
share one Map in the source but live under disjoint keys. -/
structure MemStore where
  blocked : List (String × Nat)
  rate : List (String × MemRecord)
deriving DecidableEq

/-- isIPBlocked, memory branch (rateLimiter.js lines 189-196): blocked while
`blockedUntil > now`; an expired entry is deleted lazily and the check
returns false. -/
def isIPBlockedMem (st : MemStore) (ip : String) (now : Nat) :
    MemStore × Bool :=
  match lookupS st.blocked ip with
  | some u =>
    if now < u then (st, true)
    else ({ st with blocked := removeS st.blocked ip }, false)
  | none => (st, false)

/-- Outcome of the admission part of the /api middleware chain. -/
inductive AdmissionOutcome where
  | blocked
  | rateLimited (isBurst : Bool)
  | admitted
deriving DecidableEq

/-- The /api middleware chain of part_003 lines 128-132 restricted to the
admission concern, with the in-memory store branch: `checkIPBlock` runs
first and responds 403 without calling `next()` when the identity is
blocked; only otherwise does `rateLimit` run and charge the identity's
rate record. -/
def handleAdmission (cfg : RLConfig) (st : MemStore) (ip : String)
    (now : Nat) : MemStore × AdmissionOutcome :=
  let p := isIPBlockedMem st ip now
  if p.2 then (p.1, .blocked)
  else
    let q := checkRateLimitMemory cfg (lookupS p.1.rate ip) now
    ({ p.1 with rate := insertS p.1.rate ip q.1 },
     if q.2.allowed then .admitted else .rateLimited q.2.isBurst)

/-! ## Connection pool manager (part_001 lines 569-594) -/

/-- Pool state: the number of currently leased connections. -/
structure PoolState where
  leased : Nat
deriving DecidableEq

/-- The wrapped client handed out by getClient: the `released` closure flag
and whether the 60 s leak timer has been cleared. -/
structure ClientState where
  released : Bool
  timerCancelled : Bool
deriving DecidableEq

/-- pool.connect plus the wrapping of getClient: a fresh lease with an armed
leak timer. -/
def acquireClient (p : PoolState) : PoolState × ClientState :=
  ({ leased := p.leased + 1 }, ⟨false, false⟩)

/-- The wrapped `client.release` of part_001 lines 586-591: a second call
returns immediately; the first call clears the leak timer and hands the
connection back to the pool. -/
def releaseClient (p : PoolState) (c : ClientState) : PoolState × ClientState :=
  if c.released then (p, c)
  else ({ leased := p.leased - 1 }, ⟨true, true⟩)

/-! ## Transaction runner (part_001 lines 602-619, driven by the
/api/query/transaction route of query.js lines 109-119) -/

/-- The environment decides the outcome of each round-trip the transaction
issues: BEGIN, SET statement_timeout, the i-th statement (yielding a row
count), COMMIT, ROLLBACK.  Errors are numeric codes. -/
structure TxEnv where
  beginR : Except Nat Unit
  setR : Except Nat Unit
  stmtR : Nat → Except Nat Nat
  commitR : Except Nat Unit
  rollbackR : Except Nat Unit

/-- The sequential statement loop of the route callback (query.js lines
110-117): statements `i, i+1, …` for `k` statements, aborting at the first
error. -/
def runStmts (env : TxEnv) : Nat → Nat → Except Nat (List Nat)
  | _, 0 => .ok []
  | i, k + 1 =>
    match env.stmtR i with
    | .error e => .error e
    | .ok v =>
      match runStmts env (i + 1) k with
      | .error e => .error e
      | .ok vs => .ok (v :: vs)

/-- Everything inside the `try` of `transaction` (part_001 lines 605-612):
BEGIN, SET statement_timeout, the callback's statements, COMMIT. -/
def txBody (env : TxEnv) (n : Nat) : Except Nat (List Nat) :=
  match env.beginR with
  | .error e => .error e
  | .ok _ =>
    match env.setR with
    | .error e => .error e
    | .ok _ =>
      match runStmts env 0 n with
      | .error e => .error e
      | .ok vs =>
        match env.commitR with
        | .error e => .error e
        | .ok _ => .ok vs

/-- Observable outcome of one `transaction` call. -/
structure TxResult where
  outcome : Except Nat (List Nat)
  rollbackIssued : Bool

/-- transaction (part_001 lines 602-619) over a list of `n` statements:
acquire a client, run the body; on error issue ROLLBACK and re-throw the
original error (or the ROLLBACK's own error if that also fails, as the JS
`catch` block does); release the client on the guaranteed `finally` path in
every case. -/
def execTransaction (env : TxEnv) (n : Nat) (p : PoolState) :
    PoolState × ClientState × TxResult :=
  let a := acquireClient p
  match txBody env n with
  | .ok vs =>
    let r := releaseClient a.1 a.2
    (r.1, r.2, ⟨.ok vs, false⟩)
  | .error e =>
    match env.rollbackR with
    | .ok _ =>
      let r := releaseClient a.1 a.2
      (r.1, r.2, ⟨.error e, true⟩)
    | .error e2 =>
      let r := releaseClient a.1 a.2
      (r.1, r.2, ⟨.error e2, true⟩)

/-- A concrete transaction environment whose second statement fails with
code 42 while every other round-trip succeeds; used to witness the
transaction theorems. -/
def txEnvW : TxEnv where
  beginR := .ok ()
  setR := .ok ()
  stmtR := fun i => if i = 1 then .error 42 else .ok 7
  commitR := .ok ()
  rollbackR := .ok ()

/-! ## Theorems -/

/-- C1: with strict mode enabled, `validateQuery "SELECT 1; DROP TABLE
users" []` is rejected with the dangerous-query code and `validateQuery
"DELETE FROM users WHERE id=$1" [1]` is accepted, as the claim states — but
`validateQuery "DELETE FROM users" []` is ACCEPTED, contradicting the
claim's second part: the source regex `;\s*DELETE\s+FROM\s+(?!.*WHERE)`
(whose own inline comment reads "DELETE without WHERE", and which the spec's
testable property expects to fire here) only matches a DELETE preceded by a
semicolon. -/
theorem validateQuery_delete_without_where_not_rejected :
    validateQuery "SELECT 1; DROP TABLE users" [] true =
      ⟨false, some "DANGEROUS_QUERY"⟩ ∧
    validateQuery "DELETE FROM users" [] true = ⟨true, none⟩ ∧
    validateQuery "DELETE FROM users WHERE id=$1" [SqlParam.num 1] true =
      ⟨true, none⟩ :=
  ⟨by decide, by decide, by decide⟩

/-- C4: when the shared-store round-trip throws, the admission check answers
with exactly the local in-memory algorithm's verdict for that call and
charges the in-memory record; the decision is a total value, never a
propagated error. -/
theorem fallback_on_store_failure (cfg : RLConfig) (mem : Option MemRecord)
    (now : Nat) :
    (checkRateLimitWithFallback cfg (.error ()) mem now).2 =
      (checkRateLimitMemory cfg mem now).2 ∧
    (checkRateLimitWithFallback cfg (.error ()) mem now).1.2 =
      some (checkRateLimitMemory cfg mem now).1 :=
  ⟨rfl, rfl⟩

/-- C6: the first release of an unreleased pooled client hands the
connection back (leased count drops by one) and cancels the leak timer, and
releasing an already-released client is a no-op, so release-after-release
changes nothing. -/
theorem release_idempotent (p : PoolState) (c : ClientState) :
    (c.released = false →
      (releaseClient p c).2.released = true ∧
      (releaseClient p c).2.timerCancelled = true ∧
      (releaseClient p c).1.leased = p.leased - 1) ∧
    releaseClient (releaseClient p c).1 (releaseClient p c).2 =
      releaseClient p c := by
  by_cases h : c.released = true
  · simp [releaseClient, h]
  · simp only [Bool.not_eq_true] at h
    simp [releaseClient, h]

/-- Witness for C6 at a concrete pool and client. -/
theorem release_idempotent_witness :
    (releaseClient ⟨3⟩ ⟨false, false⟩).2.released = true ∧
    (releaseClient ⟨3⟩ ⟨false, false⟩).2.timerCancelled = true ∧
    (releaseClient ⟨3⟩ ⟨false, false⟩).1.leased = 2 :=
  (release_idempotent ⟨3⟩ ⟨false, false⟩).1 rfl

/-- C8: a request from a blocked identity is rejected by the block check
that the /api chain runs before admission counting, and the whole store —
in particular the identity's rate-window record — is left unchanged. -/
theorem blocked_request_leaves_rate_untouched (cfg : RLConfig)
    (st : MemStore) (ip : String) (now u : Nat)
    (hu : lookupS st.blocked ip = some u) (hnow : now < u) :
    handleAdmission cfg st ip now = (st, .blocked) := by
  simp [handleAdmission, isIPBlockedMem, hu, hnow]

/-- Witness for C8: identity 1.2.3.4 blocked until t=5000, checked at
t=100. -/
theorem blocked_request_leaves_rate_untouched_witness :
    lookupS (MemStore.mk [("1.2.3.4", 5000)] []).blocked "1.2.3.4" =
      some 5000 ∧
    (100 : Nat) < 5000 ∧
    handleAdmission defaultRLConfig ⟨[("1.2.3.4", 5000)], []⟩ "1.2.3.4" 100 =
      (⟨[("1.2.3.4", 5000)], []⟩, .blocked) :=
  ⟨by decide, by decide,
   blocked_request_leaves_rate_untouched defaultRLConfig
     ⟨[("1.2.3.4", 5000)], []⟩ "1.2.3.4" 100 5000 (by decide) (by decide)⟩

/-- C3: for every environment (hence every failure pattern of BEGIN, SET
statement_timeout, any statement, or COMMIT) the transaction runner restores
the pool's leased count, marks the client released on every exit path, and,
when the body fails, issues a ROLLBACK and re-raises the original error
(provided the ROLLBACK round-trip itself succeeds, as the claim presumes);
on success no ROLLBACK is issued and the results are returned. -/
theorem transaction_rollback_and_release (env : TxEnv) (n : Nat)
    (p : PoolState) :
    (execTransaction env n p).1.leased = p.leased ∧
    (execTransaction env n p).2.1.released = true ∧
    (∀ e, txBody env n = .error e →
      (execTransaction env n p).2.2.rollbackIssued = true ∧
      (env.rollbackR = .ok () →
        (execTransaction env n p).2.2.outcome = .error e)) ∧
    (∀ vs, txBody env n = .ok vs →
      (execTransaction env n p).2.2.outcome = .ok vs ∧
      (execTransaction env n p).2.2.rollbackIssued = false) := by
  cases hb : txBody env n with
  | ok vs =>
    refine ⟨?_, ?_, ?_, ?_⟩
    · simp [execTransaction, hb, acquireClient, releaseClient]
    · simp [execTransaction, hb, acquireClient, releaseClient]
    · intro e he
      simp at he
    · intro vs' h
      injection h with h1
      subst h1
      simp [execTransaction, hb, acquireClient, releaseClient]
  | error e =>
    cases hr : env.rollbackR with
    | ok u =>
      cases u
      refine ⟨?_, ?_, ?_, ?_⟩
      · simp [execTransaction, hb, hr, acquireClient, releaseClient]
      · simp [execTransaction, hb, hr, acquireClient, releaseClient]
      · intro e' he
        injection he with h1
        subst h1
        simp [execTransaction, hb, hr, acquireClient, releaseClient]
      · intro vs h
        simp at h
    | error e2 =>
      refine ⟨?_, ?_, ?_, ?_⟩
      · simp [execTransaction, hb, hr, acquireClient, releaseClient]
      · simp [execTransaction, hb, hr, acquireClient, releaseClient]
      · intro e' he
        injection he with h1
        subst h1
        refine ⟨by simp [execTransaction, hb, hr, acquireClient, releaseClient], ?_⟩
        intro hok
        simp at hok
      · intro vs h
        simp at h

/-- Witness for C3: a three-statement transaction whose second statement
fails with code 42; the pool returns to 5 leases, the client is released,
ROLLBACK is issued and error 42 is re-raised. -/
theorem transaction_rollback_and_release_witness :
    txBody txEnvW 3 = .error 42 ∧
    (execTransaction txEnvW 3 ⟨5⟩).1.leased = 5 ∧
    (execTransaction txEnvW 3 ⟨5⟩).2.1.released = true ∧
    (execTransaction txEnvW 3 ⟨5⟩).2.2.rollbackIssued = true ∧
    (execTransaction txEnvW 3 ⟨5⟩).2.2.outcome = .error 42 :=
  ⟨rfl, (transaction_rollback_and_release txEnvW 3 ⟨5⟩).1,
   (transaction_rollback_and_release txEnvW 3 ⟨5⟩).2.1,
   ((transaction_rollback_and_release txEnvW 3 ⟨5⟩).2.2.1 42 rfl).1,
   ((transaction_rollback_and_release txEnvW 3 ⟨5⟩).2.2.1 42 rfl).2 rfl⟩

/-- C7 counterexample: the sanitizer's table output is NOT quoted —
`sanitizeTableName "users"` accepts and returns the bare string `users`,
which does not begin and end with a double quote. -/
theorem sanitizeTableName_output_not_quoted :
    sanitizeTableName "users" = ⟨true, some "users"⟩ ∧
    isQuotedIdent "users" = false :=
  ⟨by decide, by decide⟩

/-- C10: the blocked-table check of validateQuery is a plain substring scan
of the lower-cased SQL and runs with strict mode either on or off: any SQL
that passes the earlier size and (in strict mode) pattern checks and whose
lower-cased text contains a blocked entry anywhere — also inside a longer
identifier or a string literal — is rejected with code BLOCKED_TABLE. -/
theorem blocked_table_is_substring_scan (sql : String)
    (params : List SqlParam) (strict : Bool)
    (hne : sql.data ≠ [])
    (hlen : sql.data.length ≤ MAX_QUERY_LENGTH)
    (hp : params.length ≤ MAX_PARAMS)
    (hstrict : strict = true →
      dangerousPattern sql.data = false ∧ multiStatementPattern sql.data = false)
    (hblocked : hasBlockedTable sql.data = true) :
    validateQuery sql params strict = ⟨false, some "BLOCKED_TABLE"⟩ := by
  have h2 : ¬ (MAX_QUERY_LENGTH < sql.data.length) := by omega
  have h3 : ¬ (MAX_PARAMS < params.length) := by omega
  have h4 : ¬ (strict = true ∧ dangerousPattern sql.data = true) := by
    rintro ⟨hs, hd⟩
    rw [(hstrict hs).1] at hd
    cases hd
  have h5 : ¬ (strict = true ∧ multiStatementPattern sql.data = true) := by
    rintro ⟨hs, hm⟩
    rw [(hstrict hs).2] at hm
    cases hm
  simp only [validateQuery]
  rw [if_neg hne, if_neg h2, if_neg h3, if_neg h4, if_neg h5, if_pos hblocked]

/-- Witness for C10: the identifier `gpg_key` contains the blocked entry
`pg_` as a substring, so the query is rejected although it references no
system table; here with strict mode on (the scan also runs with it off). -/
theorem blocked_table_is_substring_scan_witness :
    hasBlockedTable "SELECT gpg_key FROM t".data = true ∧
    validateQuery "SELECT gpg_key FROM t" [] true =
      ⟨false, some "BLOCKED_TABLE"⟩ :=
  ⟨by decide,
   blocked_table_is_substring_scan "SELECT gpg_key FROM t" [] true
     (by decide) (by decide) (by decide)
     (fun _ => ⟨by decide, by decide⟩) (by decide)⟩

/-- The quote-wrapping of a column name is quoted in the spec's sense. -/
theorem isQuotedIdent_quoteCol (c : String) : isQuotedIdent (quoteCol c) = true := by
  have hd : (quoteCol c).data = '"' :: (c.data ++ ['"']) := by
    simp [quoteCol, String.data_append]
  simp [isQuotedIdent, hd, List.getLast?_concat]

/-- Characterization of the column loop: when it accepts, the output is the
input with each non-wildcard column quoted. -/
theorem sanColsLoop_spec (cols : List String) : ∀ out,
    sanColsLoop cols = some out →
    out = cols.map (fun c => if c = "*" then "*" else quoteCol c) := by
  induction cols with
  | nil =>
    intro out h
    simp only [sanColsLoop, Option.some.injEq] at h
    simp [← h]
  | cons c rest ih =>
    intro out h
    by_cases hc : c = "*"
    · simp only [sanColsLoop, if_pos hc] at h
      rw [Option.map_eq_some'] at h
      obtain ⟨a, ha, hout⟩ := h
      subst hout
      simp [hc, ih a ha]
    · by_cases hid : identOk c.data = true
      · simp only [sanColsLoop, if_neg hc, if_pos hid] at h
        rw [Option.map_eq_some'] at h
        obtain ⟨a, ha, hout⟩ := h
        subst hout
        simp [hc, ih a ha]
      · simp only [sanColsLoop, if_neg hc, if_neg hid] at h
        simp at h

/-- An accepted table name is returned verbatim, and its first character is
an identifier character, so the output is in particular not quote-wrapped. -/
theorem sanitizeTableName_accepts_verbatim (t r : String)
    (h : sanitizeTableName t = ⟨true, some r⟩) :
    r = t ∧ isQuotedIdent r = false := by
  simp only [sanitizeTableName] at h
  split at h
  next => simp at h
  next h1 =>
    split at h
    next => simp at h
    next h2 =>
      split at h
      next => simp at h
      next h3 =>
        simp only [SanTable.mk.injEq, Option.some.injEq] at h
        obtain ⟨-, rfl⟩ := h
        refine ⟨rfl, ?_⟩
        have hpat : tablePatternOk t.data = true := by
          cases hx : tablePatternOk t.data
          · exact absurd hx h2
          · rfl
        cases hd : t.data with
        | nil =>
          rw [hd] at hpat
          simp [tablePatternOk] at hpat
        | cons c cs =>
          rw [hd] at hpat
          simp only [tablePatternOk, Bool.and_eq_true] at hpat
          have hne : c ≠ '"' := by
            intro hq
            rw [hq] at hpat
            exact absurd hpat.1 (by decide)
          simp [isQuotedIdent, hd, hne]

/-- C7 (amended): only the column sanitizer quotes its output — every
accepted column list is returned with each non-wildcard name wrapped in
double quotes and `*` passed through as the sole bare wildcard, while
sanitizeTableName returns the accepted table name unquoted, exactly as
given (its call sites add the surrounding double quotes themselves). -/
theorem sanitizer_quoting_amended :
    (∀ t r, sanitizeTableName t = ⟨true, some r⟩ →
      r = t ∧ isQuotedIdent r = false) ∧
    (∀ cols out, sanitizeColumnNames cols = ⟨true, some out⟩ →
      out = cols.map (fun c => if c = "*" then "*" else quoteCol c) ∧
      ∀ s ∈ out, s = "*" ∨ isQuotedIdent s = true) := by
  constructor
  · exact sanitizeTableName_accepts_verbatim
  · intro cols out h
    have hloop : sanColsLoop cols = some out := by
      unfold sanitizeColumnNames at h
      cases hx : sanColsLoop cols with
      | some a =>
        rw [hx] at h
        simp only [SanCols.mk.injEq, Option.some.injEq] at h
        rw [h.2]
      | none =>
        rw [hx] at h
        simp at h
    have hchar := sanColsLoop_spec cols out hloop
    refine ⟨hchar, ?_⟩
    intro s hs
    rw [hchar, List.mem_map] at hs
    obtain ⟨c, -, rfl⟩ := hs
    by_cases hc : c = "*"
    · left
      simp [hc]
    · right
      simp [hc, isQuotedIdent_quoteCol]

/-- Witness for the amended C7 at concrete inputs. -/
theorem sanitizer_quoting_amended_witness :
    isQuotedIdent "users" = false ∧
    (["*", "\"name\""] : List String) =
      (["*", "name"] : List String).map
        (fun c => if c = "*" then "*" else quoteCol c) ∧
    (∀ s ∈ (["*", "\"name\""] : List String),
      s = "*" ∨ isQuotedIdent s = true) :=
  ⟨(sanitizer_quoting_amended.1 "users" "users" (by decide)).2,
   (sanitizer_quoting_amended.2 ["*", "name"] ["*", "\"name\""] (by decide)).1,
   (sanitizer_quoting_amended.2 ["*", "name"] ["*", "\"name\""] (by decide)).2⟩

/-- Boolean bridge: a non-strict comparison is the negation of the reversed
strict one. -/
theorem decide_le_eq_not_decide_lt (a b : Nat) :
    decide (a ≤ b) = !decide (b < a) := by
  by_cases h : a ≤ b
  · have h2 : ¬ b < a := by omega
    simp [h, h2]
  · have h2 : b < a := by omega
    simp [h, h2]

/-- Boolean bridge: a strict comparison is the negation of the reversed
non-strict one. -/
theorem decide_lt_eq_not_decide_le (a b : Nat) :
    decide (a < b) = !decide (b ≤ a) := by
  by_cases h : a < b
  · have h2 : ¬ b ≤ a := by omega
    simp [h, h2]
  · have h2 : b ≤ a := by omega
    simp [h, h2]

/-- Shape of every in-memory verdict: `allowed` is exactly the sustained
count check conjoined with the negation of `isBurst`, and `isBurst` is the
burst count exceeding the burst cap. -/
theorem checkMem_shape (cfg : RLConfig) (st : Option MemRecord) (now : Nat) :
    (checkRateLimitMemory cfg st now).2.allowed =
      (decide ((checkRateLimitMemory cfg st now).2.count ≤ cfg.maxRequests) &&
        !(checkRateLimitMemory cfg st now).2.isBurst) ∧
    (checkRateLimitMemory cfg st now).2.isBurst =
      decide (cfg.burstMax < (checkRateLimitMemory cfg st now).2.burstCount) := by
  simp only [checkRateLimitMemory]
  refine ⟨?_, trivial⟩
  congr 1
  exact decide_le_eq_not_decide_lt _ _

/-- Shape of every Redis verdict, identical to the in-memory one in terms of
the reported post-increment counts. -/
theorem checkRedis_shape (cfg : RLConfig) (st : RedisState) (now : Nat) :
    (checkRateLimitRedis cfg st now).2.allowed =
      (decide ((checkRateLimitRedis cfg st now).2.count ≤ cfg.maxRequests) &&
        !(checkRateLimitRedis cfg st now).2.isBurst) ∧
    (checkRateLimitRedis cfg st now).2.isBurst =
      decide (cfg.burstMax < (checkRateLimitRedis cfg st now).2.burstCount) := by
  have aux1 : ∀ cnt bcnt maxR maxB : Nat,
      (decide (cnt < maxR) && decide (bcnt < maxB)) =
        (decide (cnt + 1 ≤ maxR) && !decide (maxB ≤ bcnt)) := by
    intro cnt bcnt maxR maxB
    have h1 : decide (cnt < maxR) = decide (cnt + 1 ≤ maxR) :=
      decide_eq_decide.mpr (by omega)
    have h2 : decide (bcnt < maxB) = !decide (maxB ≤ bcnt) :=
      decide_lt_eq_not_decide_le bcnt maxB
    rw [h1, h2]
  have aux2 : ∀ a b : Nat, decide (a ≤ b) = decide (a < b + 1) := by
    intro a b
    exact decide_eq_decide.mpr (by omega)
  simp only [checkRateLimitRedis, zslideStep]
  exact ⟨aux1 _ _ _ _, aux2 _ _⟩

/-- Every verdict produced along an in-memory run has the standard shape. -/
theorem runMemory_shape (cfg : RLConfig) :
    ∀ (st : Option MemRecord) (ts : List Nat),
    ∀ res ∈ (runMemory cfg st ts).2,
    res.allowed = (decide (res.count ≤ cfg.maxRequests) && !res.isBurst) ∧
    res.isBurst = decide (cfg.burstMax < res.burstCount) := by
  intro st ts
  induction ts generalizing st with
  | nil =>
    intro res h
    simp [runMemory] at h
  | cons t ts ih =>
    intro res h
    simp only [runMemory] at h
    rw [List.mem_cons] at h
    rcases h with h | h
    · subst h
      exact checkMem_shape cfg st t
    · exact ih _ res h

/-- Every verdict produced along a Redis run has the standard shape. -/
theorem runRedis_shape (cfg : RLConfig) :
    ∀ (st : RedisState) (ts : List Nat),
    ∀ res ∈ (runRedis cfg st ts).2,
    res.allowed = (decide (res.count ≤ cfg.maxRequests) && !res.isBurst) ∧
    res.isBurst = decide (cfg.burstMax < res.burstCount) := by
  intro st ts
  induction ts generalizing st with
  | nil =>
    intro res h
    simp [runRedis] at h
  | cons t ts ih =>
    intro res h
    simp only [runRedis] at h
    rw [List.mem_cons] at h
    rcases h with h | h
    · subst h
      exact checkRedis_shape cfg st t
    · exact ih _ res h

/-- First request of a fresh identity in the in-memory store: a fresh record
at the current time, both counters at one. -/
theorem checkMem_none (cfg : RLConfig) (now : Nat) :
    checkRateLimitMemory cfg none now =
      (⟨now, 1, now, 1⟩,
       ⟨decide (1 ≤ cfg.maxRequests) && decide (1 ≤ cfg.burstMax), 1, 1,
        cfg.maxRequests - 1, now + cfg.windowMs, decide (cfg.burstMax < 1)⟩) := by
  simp [checkRateLimitMemory, freshRecord, Nat.sub_self]

/-- A request inside the sustained window does not reset it: the window
start is kept and the sustained counter advances by one. -/
theorem checkMem_step_no_reset (cfg : RLConfig) (r : MemRecord) (now : Nat)
    (h : now - r.windowStart ≤ cfg.windowMs) :
    (checkRateLimitMemory cfg (some r) now).1.windowStart = r.windowStart ∧
    (checkRateLimitMemory cfg (some r) now).1.count = r.count + 1 ∧
    (checkRateLimitMemory cfg (some r) now).2.count = r.count + 1 := by
  have hn : ¬ (cfg.windowMs < now - r.windowStart) := by omega
  simp only [checkRateLimitMemory, if_neg hn]
  refine ⟨?_, ?_, ?_⟩ <;> (split <;> rfl)

/-- A request inside both windows resets neither: both window starts are
kept and both counters advance by one. -/
theorem checkMem_step_no_resets (cfg : RLConfig) (r : MemRecord) (now : Nat)
    (h1 : now - r.windowStart ≤ cfg.windowMs)
    (h2 : now - r.burstWindowStart ≤ 1000) :
    (checkRateLimitMemory cfg (some r) now).1.windowStart = r.windowStart ∧
    (checkRateLimitMemory cfg (some r) now).1.burstWindowStart =
      r.burstWindowStart ∧
    (checkRateLimitMemory cfg (some r) now).1.burstCount = r.burstCount + 1 ∧
    (checkRateLimitMemory cfg (some r) now).2.burstCount = r.burstCount + 1 := by
  have hn : ¬ (cfg.windowMs < now - r.windowStart) := by omega
  have hb : ¬ (1000 < now - r.burstWindowStart) := by omega
  simp [checkRateLimitMemory, hn, hb]

/-- In-memory run with every request inside the record's sustained window:
the window start persists, the sustained counter accumulates, and the
reported counts enumerate consecutively. -/
theorem runMemory_counts (cfg : RLConfig) :
    ∀ (ts : List Nat) (r : MemRecord),
    (∀ t ∈ ts, t - r.windowStart ≤ cfg.windowMs) →
    ∃ r', (runMemory cfg (some r) ts).1 = some r' ∧
      r'.windowStart = r.windowStart ∧
      r'.count = r.count + ts.length ∧
      (runMemory cfg (some r) ts).2.map (fun res => res.count) =
        List.range' (r.count + 1) ts.length := by
  intro ts
  induction ts with
  | nil =>
    intro r _
    exact ⟨r, rfl, rfl, rfl, rfl⟩
  | cons t ts ih =>
    intro r h
    have ht := h t (by simp)
    obtain ⟨hw, hc, hrc⟩ := checkMem_step_no_reset cfg r t ht
    have hrest : ∀ u ∈ ts, u - (checkRateLimitMemory cfg (some r) t).1.windowStart ≤
        cfg.windowMs := by
      intro u hu
      rw [hw]
      exact h u (by simp [hu])
    obtain ⟨r', h1, h2, h3, h4⟩ := ih (checkRateLimitMemory cfg (some r) t).1 hrest
    refine ⟨r', ?_, ?_, ?_, ?_⟩
    · simpa only [runMemory] using h1
    · rw [h2, hw]
    · rw [h3, hc, List.length_cons]
      omega
    · simp only [runMemory, List.map_cons, List.length_cons]
      rw [List.range'_succ, hrc, h4, hc]

/-- In-memory run with every request inside both of the record's windows:
the burst counter accumulates and the reported burst counts enumerate
consecutively. -/
theorem runMemory_burst_counts (cfg : RLConfig) :
    ∀ (ts : List Nat) (r : MemRecord),
    (∀ t ∈ ts, t - r.windowStart ≤ cfg.windowMs ∧
      t - r.burstWindowStart ≤ 1000) →
    ∃ r', (runMemory cfg (some r) ts).1 = some r' ∧
      r'.windowStart = r.windowStart ∧
      r'.burstWindowStart = r.burstWindowStart ∧
      r'.burstCount = r.burstCount + ts.length ∧
      (runMemory cfg (some r) ts).2.map (fun res => res.burstCount) =
        List.range' (r.burstCount + 1) ts.length := by
  intro ts
  induction ts with
  | nil =>
    intro r _
    exact ⟨r, rfl, rfl, rfl, rfl, rfl⟩
  | cons t ts ih =>
    intro r h
    have ht := h t (by simp)
    obtain ⟨hw, hbw, hbc, hrbc⟩ :=
      checkMem_step_no_resets cfg r t ht.1 ht.2
    have hrest : ∀ u ∈ ts,
        u - (checkRateLimitMemory cfg (some r) t).1.windowStart ≤ cfg.windowMs ∧
        u - (checkRateLimitMemory cfg (some r) t).1.burstWindowStart ≤ 1000 := by
      intro u hu
      rw [hw, hbw]
      exact h u (by simp [hu])
    obtain ⟨r', h1, h2, h3, h4, h5⟩ :=
      ih (checkRateLimitMemory cfg (some r) t).1 hrest
    refine ⟨r', ?_, ?_, ?_, ?_, ?_⟩
    · simpa only [runMemory] using h1
    · rw [h2, hw]
    · rw [h3, hbw]
    · rw [h4, hbc, List.length_cons]
      omega
    · simp only [runMemory, List.map_cons, List.length_cons]
      rw [List.range'_succ, hrbc, h5, hbc]

/-- A request inside the sustained window of a record whose count has
reached the cap is denied. -/
theorem checkMem_denied (cfg : RLConfig) (r : MemRecord) (now : Nat)
    (hw : now - r.windowStart ≤ cfg.windowMs)
    (hc : cfg.maxRequests ≤ r.count) :
    (checkRateLimitMemory cfg (some r) now).2.allowed = false := by
  obtain ⟨-, -, hrc⟩ := checkMem_step_no_reset cfg r now hw
  obtain ⟨ha, -⟩ := checkMem_shape cfg (some r) now
  rw [ha, hrc]
  have hx : ¬ (r.count + 1 ≤ cfg.maxRequests) := by omega
  simp [hx]

/-- A request after the sustained window has fully elapsed resets the record
and is allowed whenever the configured limits admit at least one request. -/
theorem checkMem_reset_allowed (cfg : RLConfig) (r : MemRecord) (now : Nat)
    (hw : cfg.windowMs < now - r.windowStart)
    (hmax : 0 < cfg.maxRequests) (hb : 0 < cfg.burstMax) :
    (checkRateLimitMemory cfg (some r) now).2.allowed = true := by
  simp only [checkRateLimitMemory, if_pos hw]
  simp [freshRecord, Nat.sub_self]
  omega

/-- Redis run in which no sustained entry ever ages out: the sustained set
accumulates the request times in order and the reported counts enumerate
consecutively. -/
theorem runRedis_sustained (cfg : RLConfig) :
    ∀ (ts pre burstL : List Nat),
    (∀ s ∈ pre, ∀ t ∈ ts, t < s + cfg.windowMs) →
    List.Pairwise (fun a b => b < a + cfg.windowMs) ts →
    (runRedis cfg ⟨pre, burstL⟩ ts).1.sustained = pre ++ ts ∧
    (runRedis cfg ⟨pre, burstL⟩ ts).2.map (fun res => res.count) =
      List.range' (pre.length + 1) ts.length := by
  intro ts
  induction ts with
  | nil =>
    intro pre burstL _ _
    exact ⟨by simp [runRedis], rfl⟩
  | cons t ts ih =>
    intro pre burstL h hpw
    rw [List.pairwise_cons] at hpw
    have hkeep : pre.filter (fun s => decide (t < s + cfg.windowMs)) = pre := by
      rw [List.filter_eq_self]
      intro a ha
      simp [h a ha t (by simp)]
    have hstep1 :
        (checkRateLimitRedis cfg ⟨pre, burstL⟩ t).1.sustained = pre ++ [t] := by
      simp only [checkRateLimitRedis, zslideStep]
      rw [hkeep]
    have hcnt :
        (checkRateLimitRedis cfg ⟨pre, burstL⟩ t).2.count = pre.length + 1 := by
      simp only [checkRateLimitRedis, zslideStep]
      rw [hkeep]
    have hst : (checkRateLimitRedis cfg ⟨pre, burstL⟩ t).1 =
        ⟨pre ++ [t], (checkRateLimitRedis cfg ⟨pre, burstL⟩ t).1.burst⟩ := by
      rw [← hstep1]
    have hpre' : ∀ s ∈ pre ++ [t], ∀ u ∈ ts, u < s + cfg.windowMs := by
      intro s hs u hu
      rcases List.mem_append.mp hs with hs | hs
      · exact h s hs u (by simp [hu])
      · simp at hs
        subst hs
        exact hpw.1 u hu
    have ihh := ih (pre ++ [t])
      ((checkRateLimitRedis cfg ⟨pre, burstL⟩ t).1.burst) hpre' hpw.2
    constructor
    · simp only [runRedis]
      rw [hst, ihh.1]
      simp
    · simp only [runRedis, List.map_cons, List.length_cons]
      rw [hcnt, hst, ihh.2, List.range'_succ]
      simp [List.length_append]

/-- Redis run in which no burst entry ever ages out: the burst set
accumulates the request times and the reported burst counts enumerate
consecutively. -/
theorem runRedis_burst (cfg : RLConfig) :
    ∀ (ts susL preB : List Nat),
    (∀ s ∈ preB, ∀ t ∈ ts, t < s + 1000) →
    List.Pairwise (fun a b => b < a + 1000) ts →
    (runRedis cfg ⟨susL, preB⟩ ts).1.burst = preB ++ ts ∧
    (runRedis cfg ⟨susL, preB⟩ ts).2.map (fun res => res.burstCount) =
      List.range' (preB.length + 1) ts.length := by
  intro ts
  induction ts with
  | nil =>
    intro susL preB _ _
    exact ⟨by simp [runRedis], rfl⟩
  | cons t ts ih =>
    intro susL preB h hpw
    rw [List.pairwise_cons] at hpw
    have hkeep : preB.filter (fun s => decide (t < s + 1000)) = preB := by
      rw [List.filter_eq_self]
      intro a ha
      simp [h a ha t (by simp)]
    have hstep1 :
        (checkRateLimitRedis cfg ⟨susL, preB⟩ t).1.burst = preB ++ [t] := by
      simp only [checkRateLimitRedis, zslideStep]
      rw [hkeep]
    have hcnt :
        (checkRateLimitRedis cfg ⟨susL, preB⟩ t).2.burstCount =
          preB.length + 1 := by
      simp only [checkRateLimitRedis, zslideStep]
      rw [hkeep]
    have hst : (checkRateLimitRedis cfg ⟨susL, preB⟩ t).1 =
        ⟨(checkRateLimitRedis cfg ⟨susL, preB⟩ t).1.sustained, preB ++ [t]⟩ := by
      rw [← hstep1]
    have hpre' : ∀ s ∈ preB ++ [t], ∀ u ∈ ts, u < s + 1000 := by
      intro s hs u hu
      rcases List.mem_append.mp hs with hs | hs
      · exact h s hs u (by simp [hu])
      · simp at hs
        subst hs
        exact hpw.1 u hu
    have ihh := ih
      ((checkRateLimitRedis cfg ⟨susL, preB⟩ t).1.sustained)
      (preB ++ [t]) hpre' hpw.2
    constructor
    · simp only [runRedis]
      rw [hst, ihh.1]
      simp
    · simp only [runRedis, List.map_cons, List.length_cons]
      rw [hcnt, hst, ihh.2, List.range'_succ]
      simp [List.length_append]

/-- Every member of the burst set after a Redis run entered either with the
initial state or as one of the processed request times. -/
theorem runRedis_burst_subset (cfg : RLConfig) :
    ∀ (ts : List Nat) (st : RedisState),
    ∀ x ∈ (runRedis cfg st ts).1.burst, x ∈ st.burst ∨ x ∈ ts := by
  intro ts
  induction ts with
  | nil =>
    intro st x hx
    simp only [runRedis] at hx
    exact Or.inl hx
  | cons t ts ih =>
    intro st x hx
    simp only [runRedis] at hx
    rcases ih (checkRateLimitRedis cfg st t).1 x hx with h | h
    · simp only [checkRateLimitRedis, zslideStep] at h
      rcases List.mem_append.mp h with h | h
      · exact Or.inl (List.mem_of_mem_filter h)
      · simp at h
        subst h
        right
        simp
    · right
      simp [h]

/-- A Redis check at a time when the whole sustained set is still inside the
window and already holds at least the cap is denied. -/
theorem checkRedis_denied (cfg : RLConfig) (st : RedisState) (now : Nat)
    (h : ∀ s ∈ st.sustained, now < s + cfg.windowMs)
    (hc : cfg.maxRequests ≤ st.sustained.length) :
    (checkRateLimitRedis cfg st now).2.allowed = false := by
  have hkeep :
      st.sustained.filter (fun s => decide (now < s + cfg.windowMs)) =
        st.sustained := by
    rw [List.filter_eq_self]
    intro a ha
    simp [h a ha]
  simp only [checkRateLimitRedis, zslideStep, hkeep]
  have hx : ¬ (st.sustained.length < cfg.maxRequests) := by omega
  simp [hx]

/-- A Redis check at a time past both windows of everything stored prunes
both sets empty and is allowed whenever the configured limits admit at
least one request. -/
theorem checkRedis_empty_allowed (cfg : RLConfig) (st : RedisState)
    (now : Nat)
    (hs : ∀ s ∈ st.sustained, s + cfg.windowMs ≤ now)
    (hb2 : ∀ s ∈ st.burst, s + 1000 ≤ now)
    (hmax : 0 < cfg.maxRequests) (hbm : 0 < cfg.burstMax) :
    (checkRateLimitRedis cfg st now).2.allowed = true := by
  have h1 : st.sustained.filter (fun s => decide (now < s + cfg.windowMs)) =
      [] := by
    rw [List.filter_eq_nil_iff]
    intro a ha
    have := hs a ha
    simp only [decide_eq_true_eq]
    omega
  have h2 : st.burst.filter (fun s => decide (now < s + 1000)) = [] := by
    rw [List.filter_eq_nil_iff]
    intro a ha
    have := hb2 a ha
    simp only [decide_eq_true_eq]
    omega
  simp only [checkRateLimitRedis, zslideStep, h1, h2]
  simp [hmax, hbm]

/-- Requests past the burst cap: when the reported burst counts enumerate
consecutively from one and every verdict has the standard shape, every
verdict after the first `burstMax` ones is a denial with the burst flag. -/
theorem drop_burst_denied (cfg : RLConfig) (rs : List RLResult) (n : Nat)
    (hmap : rs.map (fun res => res.burstCount) = List.range' 1 n)
    (hshape : ∀ r ∈ rs,
      r.allowed = (decide (r.count ≤ cfg.maxRequests) && !r.isBurst) ∧
      r.isBurst = decide (cfg.burstMax < r.burstCount)) :
    ∀ r ∈ rs.drop cfg.burstMax, r.allowed = false ∧ r.isBurst = true := by
  intro r hr
  have hlen : rs.length = n := by
    have := congrArg List.length hmap
    simpa using this
  have hmem : r.burstCount ∈
      (rs.map (fun res => res.burstCount)).drop cfg.burstMax := by
    rw [← List.map_drop]
    exact List.mem_map_of_mem _ hr
  by_cases hk : cfg.burstMax ≤ n
  · have hsplit : List.range' 1 cfg.burstMax ++
        List.range' (1 + cfg.burstMax) (n - cfg.burstMax) =
          List.range' 1 n := by
      have hx := List.range'_append 1 cfg.burstMax (n - cfg.burstMax) 1
      rw [Nat.one_mul, Nat.sub_add_cancel hk] at hx
      exact hx
    have hdrop : (List.range' 1 n).drop cfg.burstMax =
        List.range' (1 + cfg.burstMax) (n - cfg.burstMax) := by
      rw [← hsplit, List.drop_left' (by simp)]
    rw [hmap, hdrop, List.mem_range'_1] at hmem
    obtain ⟨hsh1, hsh2⟩ := hshape r (List.mem_of_mem_drop hr)
    have hgt : cfg.burstMax < r.burstCount := by omega
    constructor
    · rw [hsh1, hsh2]
      simp [hgt]
    · rw [hsh2]
      simp [hgt]
  · exfalso
    have hnil : rs.drop cfg.burstMax = [] := by
      apply List.drop_eq_nil_of_le
      omega
    rw [hnil] at hr
    simp at hr

/-- C2: starting fresh, an identity that makes exactly `maxSustained`
requests inside one sustained window has every one of them allowed (as long
as none trips the burst flag), the next request inside the same window is
denied on the post-cap count, and a request after the window has fully
elapsed is allowed again — on the in-memory fallback algorithm and on the
shared-store (Redis sorted-set) algorithm alike. -/
theorem rate_limit_sustained_window (cfg : RLConfig) (t1 : Nat)
    (rest : List Nat) (tNext tLater : Nat)
    (hN : (t1 :: rest).length = cfg.maxRequests)
    (hin : ∀ t ∈ t1 :: rest, t1 ≤ t ∧ t - t1 < cfg.windowMs)
    (hnext : t1 ≤ tNext ∧ tNext - t1 < cfg.windowMs)
    (hlater : ∀ t ∈ t1 :: rest, t + cfg.windowMs < tLater)
    (hw : 1000 ≤ cfg.windowMs)
    (hbm : 0 < cfg.burstMax) :
    ((∀ r ∈ (runMemory cfg none (t1 :: rest)).2, r.isBurst = false) →
      ∀ r ∈ (runMemory cfg none (t1 :: rest)).2, r.allowed = true) ∧
    (checkRateLimitMemory cfg (runMemory cfg none (t1 :: rest)).1
      tNext).2.allowed = false ∧
    (checkRateLimitMemory cfg (runMemory cfg none (t1 :: rest)).1
      tLater).2.allowed = true ∧
    ((∀ r ∈ (runRedis cfg ⟨[], []⟩ (t1 :: rest)).2, r.isBurst = false) →
      ∀ r ∈ (runRedis cfg ⟨[], []⟩ (t1 :: rest)).2, r.allowed = true) ∧
    (checkRateLimitRedis cfg (runRedis cfg ⟨[], []⟩ (t1 :: rest)).1
      tNext).2.allowed = false ∧
    (checkRateLimitRedis cfg (runRedis cfg ⟨[], []⟩ (t1 :: rest)).1
      tLater).2.allowed = true := by
  have hN' : rest.length + 1 = cfg.maxRequests := by simpa using hN
  have hmaxpos : 0 < cfg.maxRequests := by omega
  -- in-memory: first request then the characterized run
  have hstep0 := checkMem_none cfg t1
  have hrest : ∀ u ∈ rest,
      u - (⟨t1, 1, t1, 1⟩ : MemRecord).windowStart ≤ cfg.windowMs := by
    intro u hu
    have h := hin u (by simp [hu])
    show u - t1 ≤ cfg.windowMs
    omega
  obtain ⟨r', hr1, hrw, hrc, hrmap⟩ :=
    runMemory_counts cfg rest ⟨t1, 1, t1, 1⟩ hrest
  have hm1 : (runMemory cfg none (t1 :: rest)).1 =
      (runMemory cfg (some ⟨t1, 1, t1, 1⟩) rest).1 := by
    simp only [runMemory, hstep0]
  have hm2 : (runMemory cfg none (t1 :: rest)).2 =
      (checkRateLimitMemory cfg none t1).2 ::
        (runMemory cfg (some ⟨t1, 1, t1, 1⟩) rest).2 := by
    simp only [runMemory, hstep0]
  have hmapfull : (runMemory cfg none (t1 :: rest)).2.map
      (fun res => res.count) = List.range' 1 (rest.length + 1) := by
    rw [hm2, List.map_cons, hrmap, hstep0]
    simp [List.range'_succ]
  -- redis: the characterized run
  have hPW : List.Pairwise (fun a b => b < a + cfg.windowMs) (t1 :: rest) := by
    apply List.pairwise_of_forall_mem_list
    intro a ha b hb
    have h1 := hin a ha
    have h2 := hin b hb
    omega
  obtain ⟨hsus, hrmapR⟩ :=
    runRedis_sustained cfg (t1 :: rest) [] [] (by simp) hPW
  have hmapR : (runRedis cfg ⟨[], []⟩ (t1 :: rest)).2.map
      (fun res => res.count) = List.range' 1 (rest.length + 1) := by
    simpa using hrmapR
  refine ⟨?_, ?_, ?_, ?_, ?_, ?_⟩
  · -- memory: all N requests allowed when no burst flag
    intro hbursts r hr
    obtain ⟨hsh1, hsh2⟩ := runMemory_shape cfg none (t1 :: rest) r hr
    have hcnt : r.count ∈ List.range' 1 (rest.length + 1) := by
      rw [← hmapfull]
      exact List.mem_map_of_mem _ hr
    rw [List.mem_range'_1] at hcnt
    have hcle : r.count ≤ cfg.maxRequests := by omega
    rw [hsh1, hbursts r hr]
    simp [hcle]
  · -- memory: request N+1 inside the window denied
    rw [hm1, hr1]
    apply checkMem_denied
    · rw [hrw]
      show tNext - t1 ≤ cfg.windowMs
      omega
    · rw [hrc]
      show cfg.maxRequests ≤ 1 + rest.length
      omega
  · -- memory: request after the window allowed again
    rw [hm1, hr1]
    apply checkMem_reset_allowed
    · rw [hrw]
      show cfg.windowMs < tLater - t1
      have := hlater t1 (by simp)
      omega
    · exact hmaxpos
    · exact hbm
  · -- redis: all N requests allowed when no burst flag
    intro hbursts r hr
    obtain ⟨hsh1, hsh2⟩ := runRedis_shape cfg ⟨[], []⟩ (t1 :: rest) r hr
    have hcnt : r.count ∈ List.range' 1 (rest.length + 1) := by
      rw [← hmapR]
      exact List.mem_map_of_mem _ hr
    rw [List.mem_range'_1] at hcnt
    have hcle : r.count ≤ cfg.maxRequests := by omega
    rw [hsh1, hbursts r hr]
    simp [hcle]
  · -- redis: request N+1 inside the window denied
    apply checkRedis_denied
    · intro s hs
      rw [hsus] at hs
      simp only [List.nil_append] at hs
      have := hin s hs
      omega
    · rw [hsus]
      simp only [List.nil_append]
      exact hN.ge
  · -- redis: request after the window allowed again
    apply checkRedis_empty_allowed
    · intro s hs
      rw [hsus] at hs
      simp only [List.nil_append] at hs
      have := hlater s hs
      omega
    · intro s hs
      rcases runRedis_burst_subset cfg (t1 :: rest) ⟨[], []⟩ s hs with h | h
      · simp at h
      · have := hlater s h
        omega
    · exact hmaxpos
    · exact hbm

/-- Witness for C2: three requests at 1000/2000/3000 ms against a limit of
3 per 60 s window fill the window; the fourth at 4000 ms is denied; a
request at 70000 ms is allowed again — on both algorithms. -/
theorem rate_limit_sustained_window_witness :
    (∀ r ∈ (runMemory ⟨60000, 3, 20⟩ none [1000, 2000, 3000]).2,
      r.allowed = true) ∧
    (checkRateLimitMemory ⟨60000, 3, 20⟩
      (runMemory ⟨60000, 3, 20⟩ none [1000, 2000, 3000]).1
      4000).2.allowed = false ∧
    (checkRateLimitMemory ⟨60000, 3, 20⟩
      (runMemory ⟨60000, 3, 20⟩ none [1000, 2000, 3000]).1
      70000).2.allowed = true ∧
    (∀ r ∈ (runRedis ⟨60000, 3, 20⟩ ⟨[], []⟩ [1000, 2000, 3000]).2,
      r.allowed = true) ∧
    (checkRateLimitRedis ⟨60000, 3, 20⟩
      (runRedis ⟨60000, 3, 20⟩ ⟨[], []⟩ [1000, 2000, 3000]).1
      4000).2.allowed = false ∧
    (checkRateLimitRedis ⟨60000, 3, 20⟩
      (runRedis ⟨60000, 3, 20⟩ ⟨[], []⟩ [1000, 2000, 3000]).1
      70000).2.allowed = true := by
  have h := rate_limit_sustained_window ⟨60000, 3, 20⟩ 1000 [2000, 3000]
    4000 70000 (by decide) (by decide) (by decide) (by decide)
    (by decide) (by decide)
  exact ⟨h.1 (by decide), h.2.1, h.2.2.1, h.2.2.2.1 (by decide),
    h.2.2.2.2.1, h.2.2.2.2.2⟩

/-- C5: an identity whose requests all fall inside one 1-second span has
every request beyond the burst cap denied with the burst flag set — whatever
the sustained cap and remaining sustained quota — on the in-memory fallback
algorithm and on the shared-store (Redis sorted-set) algorithm alike. -/
theorem burst_cap_denies (cfg : RLConfig) (t1 : Nat) (rest : List Nat)
    (hin : ∀ t ∈ t1 :: rest, t1 ≤ t ∧ t - t1 < 1000)
    (hw : 1000 ≤ cfg.windowMs) :
    (∀ r ∈ (runMemory cfg none (t1 :: rest)).2.drop cfg.burstMax,
      r.allowed = false ∧ r.isBurst = true) ∧
    (∀ r ∈ (runRedis cfg ⟨[], []⟩ (t1 :: rest)).2.drop cfg.burstMax,
      r.allowed = false ∧ r.isBurst = true) := by
  constructor
  · -- in-memory
    have hstep0 := checkMem_none cfg t1
    have hrest : ∀ u ∈ rest,
        u - (⟨t1, 1, t1, 1⟩ : MemRecord).windowStart ≤ cfg.windowMs ∧
        u - (⟨t1, 1, t1, 1⟩ : MemRecord).burstWindowStart ≤ 1000 := by
      intro u hu
      have h := hin u (by simp [hu])
      constructor
      · show u - t1 ≤ cfg.windowMs
        omega
      · show u - t1 ≤ 1000
        omega
    obtain ⟨r', hr1, hrw, hrbw, hrbc, hrbmap⟩ :=
      runMemory_burst_counts cfg rest ⟨t1, 1, t1, 1⟩ hrest
    have hm2 : (runMemory cfg none (t1 :: rest)).2 =
        (checkRateLimitMemory cfg none t1).2 ::
          (runMemory cfg (some ⟨t1, 1, t1, 1⟩) rest).2 := by
      simp only [runMemory, hstep0]
    have hbmapfull : (runMemory cfg none (t1 :: rest)).2.map
        (fun res => res.burstCount) = List.range' 1 (rest.length + 1) := by
      rw [hm2, List.map_cons, hrbmap, hstep0]
      simp [List.range'_succ]
    exact drop_burst_denied cfg _ _ hbmapfull
      (fun r hr => runMemory_shape cfg none (t1 :: rest) r hr)
  · -- redis
    have hPW : List.Pairwise (fun a b => b < a + 1000) (t1 :: rest) := by
      apply List.pairwise_of_forall_mem_list
      intro a ha b hb
      have h1 := hin a ha
      have h2 := hin b hb
      omega
    obtain ⟨hb1, hbmapR⟩ := runRedis_burst cfg (t1 :: rest) [] [] (by simp) hPW
    have hbmapR' : (runRedis cfg ⟨[], []⟩ (t1 :: rest)).2.map
        (fun res => res.burstCount) = List.range' 1 (rest.length + 1) := by
      simpa using hbmapR
    exact drop_burst_denied cfg _ _ hbmapR'
      (fun r hr => runRedis_shape cfg ⟨[], []⟩ (t1 :: rest) r hr)

/-- Witness for C5: four requests inside one second against a burst cap of
2; the third and fourth are denied with the burst flag on both algorithms
even though the sustained cap of 100 has ample quota. -/
theorem burst_cap_denies_witness :
    (∀ r ∈ (runMemory ⟨60000, 100, 2⟩ none [0, 100, 200, 300]).2.drop 2,
      r.allowed = false ∧ r.isBurst = true) ∧
    (∀ r ∈ (runRedis ⟨60000, 100, 2⟩ ⟨[], []⟩ [0, 100, 200, 300]).2.drop 2,
      r.allowed = false ∧ r.isBurst = true) :=
  burst_cap_denies ⟨60000, 100, 2⟩ 0 [100, 200, 300] (by decide) (by decide)

end AmlBackend
